import Mathlib

/-!
Verification of the q2-feature-table matrix transformation and filtering
engine against its design specification.

The repository ships the plugin registration layer (`plugin_setup.py`);
the operations it registers (`rarefy`, `relative_frequency`, `merge`,
`merge_seq_data`, `merge_taxa_data`, `filter_samples`, `filter_features`,
`core_features`) are declared there with their parameter types.  The
operations themselves are embedded below from the specification of the
matrix engine; the registration-layer parameter constraints are embedded
directly from `plugin_setup.py`.

Numeric values are modelled as exact rationals (`ℚ`); floating-point
tolerance statements become exact equalities in this model.
-/

namespace Q2FeatureTable

/-- Modelled from the spec: the error taxonomy of §7.  The concrete Python
error classes are not under `src/`; only their trigger conditions are
specified. -/
inductive TableError where
  | invalidDepth
  | invalidRange
  | invalidSteps
  | invalidOverlapMethod
  | emptyValue
  | emptyResult
  | overlapConflict
deriving DecidableEq

/-- Modelled from the spec: the FeatureMatrix data structure of §3 — ordered
sample ids (rows), ordered feature ids (columns), and a value mapping that
is meaningful on the id sets (a sparse mapping; positions outside the id
sets are read as zero via `entry`). -/
structure FeatureMatrix where
  sample_ids : List String
  feature_ids : List String
  val : String → String → ℚ

/-- The value of the matrix at a (sample, feature) position, zero when the
ids are not part of the matrix. -/
def entry (M : FeatureMatrix) (s f : String) : ℚ :=
  if s ∈ M.sample_ids ∧ f ∈ M.feature_ids then M.val s f else 0

/-- Total count of a sample row: the sum of the row's values across the
feature axis. -/
def rowSum (M : FeatureMatrix) (s : String) : ℚ :=
  (M.feature_ids.map (M.val s)).sum

/-- Number of features with a non-zero value in a sample row. -/
def nnzRow (M : FeatureMatrix) (s : String) : ℕ :=
  (M.feature_ids.filter fun f => decide (M.val s f ≠ 0)).length

/-- Number of samples in which a feature has a non-zero value. -/
def nnzCol (M : FeatureMatrix) (f : String) : ℕ :=
  (M.sample_ids.filter fun s => decide (M.val s f ≠ 0)).length

/-- Modelled from the spec: the §3 FeatureMatrix invariant — unique ids,
non-negative values, and no all-zero row or column. -/
def MatrixInvariant (M : FeatureMatrix) : Prop :=
  M.sample_ids.Nodup ∧ M.feature_ids.Nodup ∧
  (∀ s ∈ M.sample_ids, ∀ f ∈ M.feature_ids, 0 ≤ M.val s f) ∧
  (∀ s ∈ M.sample_ids, ∃ f ∈ M.feature_ids, M.val s f ≠ 0) ∧
  (∀ f ∈ M.feature_ids, ∃ s ∈ M.sample_ids, M.val s f ≠ 0)

/-- Modelled from the spec: the shared post-processing step of §9 — drop
every sample row that is all-zero across the feature axis. -/
def dropZeroRows (M : FeatureMatrix) : FeatureMatrix :=
  ⟨M.sample_ids.filter fun s => decide (∃ f ∈ M.feature_ids, M.val s f ≠ 0),
   M.feature_ids, M.val⟩

/-- Modelled from the spec: the shared post-processing step of §9 — drop
every feature column that is all-zero across the sample axis. -/
def dropZeroColumns (M : FeatureMatrix) : FeatureMatrix :=
  ⟨M.sample_ids,
   M.feature_ids.filter fun f => decide (∃ s ∈ M.sample_ids, M.val s f ≠ 0),
   M.val⟩

/-- Modelled from the spec: cascading invariant enforcement (§9) — remove
all-zero rows, then all-zero columns. -/
def cleanup (M : FeatureMatrix) : FeatureMatrix :=
  dropZeroColumns (dropZeroRows M)

/-- Modelled from the spec: `to_relative_frequency` (§4.1) — divide each
row by its sum, failing with `EmptyValueError` when a row sum is zero.
The Python implementation is not under `src/`; only its registration is. -/
def relative_frequency (M : FeatureMatrix) : Except TableError FeatureMatrix :=
  if ∃ s ∈ M.sample_ids, rowSum M s = 0 then Except.error TableError.emptyValue
  else Except.ok ⟨M.sample_ids, M.feature_ids, fun s f => M.val s f / rowSum M s⟩

/-- Modelled from the spec: validity of one sample's subsampling draw
(§4.2) — the injected randomness produces, for a retained sample, a
per-feature count vector bounded above by the original row and summing to
the sampling depth (an exact without-replacement draw). -/
def DrawValid (M : FeatureMatrix) (d : ℚ) (draw : String → String → ℚ)
    (s : String) : Prop :=
  (∀ f ∈ M.feature_ids, 0 ≤ draw s f ∧ draw s f ≤ M.val s f) ∧
  (M.feature_ids.map (draw s)).sum = d

/-- The samples retained by rarefaction: those whose total count reaches
the sampling depth. -/
def rarefyKept (M : FeatureMatrix) (d : ℚ) : List String :=
  M.sample_ids.filter fun s => decide (d ≤ rowSum M s)

/-- Modelled from the spec: `rarefy` (§4.2) — drop the samples whose total
is below the sampling depth, replace each retained row by its subsampling
draw, then drop the feature columns that became all-zero.  Fails with
`InvalidDepthError` on a non-positive depth and with `EmptyResultError`
when no sample reaches the depth.  The randomness source is the injected
`draw` argument.  The Python implementation is not under `src/`; only its
registration is. -/
def rarefy (M : FeatureMatrix) (d : ℚ) (draw : String → String → ℚ) :
    Except TableError FeatureMatrix :=
  if d ≤ 0 then Except.error TableError.invalidDepth
  else if rarefyKept M d = [] then Except.error TableError.emptyResult
  else Except.ok (dropZeroColumns ⟨rarefyKept M d, M.feature_ids, draw⟩)

/-- Modelled from the spec: the filter inputs of §4.3 — numeric bounds on
the summed value and on the number of non-zero entries, an optional
externally resolved candidate id set, and the exclude flag.  Unspecified
upper bounds default to unbounded. -/
structure FilterParams where
  min_total : ℚ
  max_total : Option ℚ
  min_count : ℕ
  max_count : Option ℕ
  id_set : Option (List String)
  exclude_ids : Bool

/-- The eager parameter validation of §4.3: no `min_*` bound may exceed
its paired `max_*` bound. -/
def boundsValid (p : FilterParams) : Bool :=
  (match p.max_total with | none => true | some m => decide (p.min_total ≤ m)) &&
  (match p.max_count with | none => true | some m => decide (p.min_count ≤ m))

/-- Modelled from the spec: the per-row selection rule of §4.3 — the
numeric bounds and the id-set membership condition must all pass. -/
def retainSample (M : FeatureMatrix) (p : FilterParams) (s : String) : Bool :=
  decide (p.min_total ≤ rowSum M s) &&
  (match p.max_total with | none => true | some m => decide (rowSum M s ≤ m)) &&
  decide (p.min_count ≤ nnzRow M s) &&
  (match p.max_count with | none => true | some m => decide (nnzRow M s ≤ m)) &&
  (match p.id_set with
   | none => true
   | some ids => if p.exclude_ids then !(decide (s ∈ ids)) else decide (s ∈ ids))

/-- The samples retained by the selection rule. -/
def keptSamples (M : FeatureMatrix) (p : FilterParams) : List String :=
  M.sample_ids.filter (retainSample M p)

/-- Modelled from the spec: `filter_samples` (§4.3) — validate the bound
pairs, retain the samples passing the selection rule, cascade-drop the
feature columns that became all-zero, and fail with `EmptyResultError`
rather than returning a matrix with zero rows or zero columns.  The
Python implementation is not under `src/`; only its registration is. -/
def filter_samples (M : FeatureMatrix) (p : FilterParams) :
    Except TableError FeatureMatrix :=
  if boundsValid p = false then Except.error TableError.invalidRange
  else
    if keptSamples M p = [] ∨
        (dropZeroColumns ⟨keptSamples M p, M.feature_ids, M.val⟩).feature_ids = [] then
      Except.error TableError.emptyResult
    else Except.ok (dropZeroColumns ⟨keptSamples M p, M.feature_ids, M.val⟩)

/-- Axis swap: rows become columns and columns become rows. -/
def transpose (M : FeatureMatrix) : FeatureMatrix :=
  ⟨M.feature_ids, M.sample_ids, fun f s => M.val s f⟩

/-- Modelled from the spec: `filter_features` (§4.3) — the same algorithm
as `filter_samples` with the axes swapped. -/
def filter_features (M : FeatureMatrix) (p : FilterParams) :
    Except TableError FeatureMatrix :=
  (filter_samples (transpose M) p).map transpose

/-- The §8 concrete scenario parameters: `min_features = 3` on samples,
every other bound at its widest and no candidate id set. -/
def exMinFeatures3 : FilterParams := ⟨0, none, 3, none, none, false⟩

/-- Modelled from the spec: the two fully specified overlap policies of
§4.4 ("error" and "union"); the further named strategies are left open by
the spec (§9) and are not modelled. -/
inductive OverlapMethod where
  | errorOnOverlap
  | union

/-- Order-preserving union of two id lists: the first list followed by
the members of the second not already present. -/
def listUnion (l1 l2 : List String) : List String :=
  l1 ++ l2.filter fun x => decide (x ∉ l1)

/-- Modelled from the spec: the structural part of `merge_tables` (§4.4) —
the row and column id sets are unioned and each (sample, feature) position
combines the two inputs by summation, zero-filling the side where the
position is absent. -/
def mergeRaw (A B : FeatureMatrix) : FeatureMatrix :=
  ⟨listUnion A.sample_ids B.sample_ids,
   listUnion A.feature_ids B.feature_ids,
   fun s f => entry A s f + entry B s f⟩

/-- Modelled from the spec: `merge_tables` (§4.4) — the "error" policy
fails with `OverlapConflictError` when any sample id occurs in both
tables, the "union" policy sums overlapping samples, and the structural
invariant is re-enforced before returning.  The Python implementation is
not under `src/`; only its registration is. -/
def merge (A B : FeatureMatrix) (m : OverlapMethod) :
    Except TableError FeatureMatrix :=
  match m with
  | OverlapMethod.errorOnOverlap =>
      if ∃ s ∈ A.sample_ids, s ∈ B.sample_ids then
        Except.error TableError.overlapConflict
      else Except.ok (cleanup (mergeRaw A B))
  | OverlapMethod.union => Except.ok (cleanup (mergeRaw A B))

/-- Modelled from the spec: `merge_side_data` (§4.4) — key-wise union of
two side-data collections in which a key present in both keeps the value
from the first collection.  The Python implementations (`merge_seq_data`,
`merge_taxa_data`) are not under `src/`; only their registrations are. -/
def merge_side_data (d1 d2 : List (String × String)) : List (String × String) :=
  d1 ++ d2.filter fun p => decide (∀ q ∈ d1, q.1 ≠ p.1)

/-- Concrete side-data collections sharing the feature id "f1" with
different values. -/
def exSeq1 : List (String × String) := [("f1", "ACGT")]

/-- Second concrete side-data collection, holding a conflicting value for
"f1" and a fresh feature "f2". -/
def exSeq2 : List (String × String) := [("f1", "TTTT"), ("f2", "GGGG")]

/-- The core-feature sweep of `exM` from fraction 1/2 to 1 in 2 steps:
at 1/2, every feature is core (each is observed in at least 1 of the 2
samples); at 1, only "O3" is core (observed in both samples). -/
def exSweep : List (ℚ × List String) :=
  [(1/2, ["O1", "O2", "O3"]), (1, ["O3"])]

/-- Modelled from the spec: the eager parameter validation of the
core-feature analysis (§4.5, §7) — the fractions must lie in (0, 1] with
`min_fraction ≤ max_fraction`, checked first, and `steps < 2` is an error
only when the two fractions differ. -/
def core_check (mn mx : ℚ) (steps : ℕ) : Option TableError :=
  if ¬(0 < mn ∧ mn ≤ 1) ∨ ¬(0 < mx ∧ mx ≤ 1) ∨ mx < mn then
    some TableError.invalidRange
  else if steps < 2 ∧ mn ≠ mx then some TableError.invalidSteps
  else none

/-- Modelled from the spec: the `steps` evenly spaced fraction values from
`min_fraction` to `max_fraction` inclusive, a single value when the two
fractions are equal (§4.5). -/
def sweepFractions (mn mx : ℚ) (steps : ℕ) : List ℚ :=
  if mn = mx then [mn]
  else (List.range steps).map fun i => mn + (mx - mn) * i / ((steps : ℚ) - 1)

/-- Modelled from the spec: a feature is "core" at fraction `frac` when its
occurrence fraction — samples observed in, over total samples — is at
least `frac` (§4.5), stated multiplicatively. -/
def isCore (M : FeatureMatrix) (frac : ℚ) (f : String) : Bool :=
  decide (frac * (M.sample_ids.length : ℚ) ≤ (nnzCol M f : ℚ))

/-- Modelled from the spec: the core-feature fraction sweep (§4.5) —
validate the parameters, then report, for each computed fraction, the
features meeting the occurrence criterion.  The Python implementation is
not under `src/`; only its registration is. -/
def core_features (M : FeatureMatrix) (mn mx : ℚ) (steps : ℕ) :
    Except TableError (List (ℚ × List String)) :=
  match core_check mn mx steps with
  | some e => Except.error e
  | none =>
      Except.ok ((sweepFractions mn mx steps).map fun fr =>
        (fr, M.feature_ids.filter (isCore M fr)))

/-- From `plugin_setup.py` line 299: `steps` is registered as
`Int % Range(2, None)` — an integer of at least 2, no upper bound. -/
def core_features_steps_ok (steps : ℤ) : Bool := decide (2 ≤ steps)

/-- From `plugin_setup.py` line 297: `min_fraction` is registered as
`Float % Range(0.0, 1.0, inclusive_start=False)`; the end is exclusive by
default, so the admitted interval is the open (0, 1). -/
def core_features_min_fraction_ok (x : ℚ) : Bool := decide (0 < x ∧ x < 1)

/-- From `plugin_setup.py` line 298: `max_fraction` is registered as
`Float % Range(0.0, 1.0, inclusive_end=True)`; the start is inclusive by
default, so the admitted interval is the closed [0, 1]. -/
def core_features_max_fraction_ok (x : ℚ) : Bool := decide (0 ≤ x ∧ x ≤ 1)

/-- Joint acceptance of the registered `core_features` parameters: all
three registration constraints must pass. -/
def core_features_params_ok (mn mx : ℚ) (steps : ℤ) : Bool :=
  core_features_min_fraction_ok mn && core_features_max_fraction_ok mx &&
    core_features_steps_ok steps

/-- The concrete 2-sample × 3-feature matrix of the spec's §8 scenarios:
sample A = [10, 0, 5], sample B = [0, 3, 2]. -/
def exM : FeatureMatrix :=
  ⟨["A", "B"], ["O1", "O2", "O3"],
   fun s f =>
     if s = "A" then (if f = "O1" then 10 else if f = "O2" then 0 else 5)
     else if s = "B" then (if f = "O1" then 0 else if f = "O2" then 3 else 2)
     else 0⟩

/-- A matrix with an all-zero sample row, violating the §3 invariant. -/
def exZeroRow : FeatureMatrix :=
  ⟨["A", "Z"], ["O1"], fun s f => if s = "A" ∧ f = "O1" then 4 else 0⟩

/-- A concrete depth-3 subsampling draw for `exM`: A ↦ [2, 0, 1],
B ↦ [0, 2, 1]. -/
def exDraw : String → String → ℚ := fun s f =>
  if s = "A" then (if f = "O1" then 2 else if f = "O2" then 0 else 1)
  else if s = "B" then (if f = "O1" then 0 else if f = "O2" then 2 else 1)
  else 0

end Q2FeatureTable

namespace Q2FeatureTable

theorem sum_map_div (l : List String) (g : String → ℚ) (c : ℚ) :
    (l.map fun f => g f / c).sum = (l.map g).sum / c := by
  simp only [div_eq_mul_inv]
  exact List.sum_map_mul_right l g c⁻¹

/-- C3: to_relative_frequency yields rows summing to 1 (exactly, in the
rational model) and preserves the positions of the non-zero entries. -/
theorem relative_frequency_rows_and_support (M R : FeatureMatrix)
    (hR : relative_frequency M = Except.ok R) :
    (∀ s ∈ R.sample_ids, rowSum R s = 1) ∧
    (∀ s f, entry R s f ≠ 0 ↔ entry M s f ≠ 0) := by
  unfold relative_frequency at hR
  split at hR
  · exact absurd hR (by simp)
  · rename_i hno
    push_neg at hno
    have hRdef : R = ⟨M.sample_ids, M.feature_ids, fun s f => M.val s f / rowSum M s⟩ :=
      (Except.ok.injEq _ _).mp hR.symm
    subst hRdef
    constructor
    · intro s hs
      have hT : rowSum M s ≠ 0 := hno s hs
      show ((M.feature_ids.map fun f => M.val s f / rowSum M s).sum) = 1
      rw [sum_map_div]
      exact div_self (by exact hT)
    · intro s f
      show (if s ∈ M.sample_ids ∧ f ∈ M.feature_ids then M.val s f / rowSum M s else 0) ≠ 0 ↔
        entry M s f ≠ 0
      unfold entry
      by_cases hmem : s ∈ M.sample_ids ∧ f ∈ M.feature_ids
      · have hT : rowSum M s ≠ 0 := hno s hmem.1
        simp only [if_pos hmem]
        constructor
        · intro hne
          exact fun hv => hne (by rw [hv]; simp)
        · intro hne
          exact div_ne_zero hne hT
      · simp [if_neg hmem]

/-- C3 witness: on the concrete spec scenario matrix, the relative
frequencies of sample A are [10/15, 0, 5/15], the row sums to 1, and the
non-zero support is preserved. -/
theorem relative_frequency_rows_and_support_witness :
    ∃ R, relative_frequency exM = Except.ok R ∧
      (∀ s ∈ R.sample_ids, rowSum R s = 1) ∧
      (∀ s f, entry R s f ≠ 0 ↔ entry exM s f ≠ 0) := by
  have h : relative_frequency exM =
      Except.ok ⟨exM.sample_ids, exM.feature_ids, fun s f => exM.val s f / rowSum exM s⟩ := by
    unfold relative_frequency
    rw [if_neg]
    simp [exM, rowSum]
    norm_num
  exact ⟨_, h, relative_frequency_rows_and_support exM _ h⟩

theorem rowSum_pos_of_invariant (M : FeatureMatrix)
    (hnn : ∀ s ∈ M.sample_ids, ∀ f ∈ M.feature_ids, 0 ≤ M.val s f)
    (hrow : ∀ s ∈ M.sample_ids, ∃ f ∈ M.feature_ids, M.val s f ≠ 0)
    (s : String) (hs : s ∈ M.sample_ids) : 0 < rowSum M s := by
  obtain ⟨f, hf, hne⟩ := hrow s hs
  have hpos : 0 < M.val s f := lt_of_le_of_ne (hnn s hs f hf) (Ne.symm hne)
  have hle : M.val s f ≤ rowSum M s := by
    apply List.single_le_sum
    · intro x hx
      obtain ⟨g, hg, hgx⟩ := List.mem_map.mp hx
      exact hgx ▸ hnn s hs g hg
    · exact List.mem_map.mpr ⟨f, hf, rfl⟩
  exact lt_of_lt_of_le hpos hle

/-- C4: to_relative_frequency fails with EmptyValueError whenever some
sample row sums to zero, and under the §3 FeatureMatrix invariant this
branch is unreachable: the operation succeeds on every invariant-satisfying
matrix. -/
theorem relative_frequency_empty_value (M : FeatureMatrix) :
    ((∃ s ∈ M.sample_ids, rowSum M s = 0) →
      relative_frequency M = Except.error TableError.emptyValue) ∧
    (MatrixInvariant M → ∃ R, relative_frequency M = Except.ok R) := by
  constructor
  · intro hzero
    unfold relative_frequency
    rw [if_pos hzero]
  · intro hinv
    obtain ⟨-, -, hnn, hrow, -⟩ := hinv
    refine ⟨⟨M.sample_ids, M.feature_ids, fun s f => M.val s f / rowSum M s⟩, ?_⟩
    unfold relative_frequency
    rw [if_neg]
    rintro ⟨s, hs, hzero⟩
    exact absurd hzero (ne_of_gt (rowSum_pos_of_invariant M hnn hrow s hs))

/-- C4 witness: the matrix with an all-zero row "Z" triggers
EmptyValueError, and the concrete spec scenario matrix satisfies the
invariant and converts successfully. -/
theorem relative_frequency_empty_value_witness :
    relative_frequency exZeroRow = Except.error TableError.emptyValue ∧
    ∃ R, relative_frequency exM = Except.ok R := by
  constructor
  · apply (relative_frequency_empty_value exZeroRow).1
    refine ⟨"Z", by simp [exZeroRow], ?_⟩
    simp [rowSum, exZeroRow]
  · exact (relative_frequency_empty_value exM).2 (by unfold MatrixInvariant; decide)

theorem sum_map_filter_eq (l : List String) (p : String → Bool) (g : String → ℚ)
    (h : ∀ x ∈ l, p x = false → g x = 0) :
    ((l.filter p).map g).sum = (l.map g).sum := by
  induction l with
  | nil => rfl
  | cons a t ih =>
    have ih2 := ih fun x hx hb => h x (List.mem_cons_of_mem a hx) hb
    by_cases hp : p a = true
    · simp [List.filter_cons, hp, ih2]
    · have ha : g a = 0 := h a (List.mem_cons_self a t) (by simpa using hp)
      simp [List.filter_cons, hp, ih2, ha]

theorem map_sum_le_forces_eq (l : List String) (u v : String → ℚ)
    (hle : ∀ x ∈ l, u x ≤ v x) (hs : (l.map u).sum = (l.map v).sum) :
    ∀ x ∈ l, u x = v x := by
  induction l with
  | nil => intro x hx; cases hx
  | cons a t ih =>
    simp only [List.map_cons, List.sum_cons] at hs
    have htle : (t.map u).sum ≤ (t.map v).sum :=
      List.sum_le_sum fun x hx => hle x (List.mem_cons_of_mem a hx)
    have hale : u a ≤ v a := hle a (List.mem_cons_self a t)
    have haeq : u a = v a := le_antisymm hale (by linarith)
    have hteq : (t.map u).sum = (t.map v).sum := by linarith
    intro x hx
    rcases List.mem_cons.mp hx with h1 | h2
    · exact h1 ▸ haeq
    · exact ih (fun y hy => hle y (List.mem_cons_of_mem a hy)) hteq x h2

theorem rarefyKept_mem (M : FeatureMatrix) (d : ℚ) (s : String) :
    s ∈ rarefyKept M d ↔ s ∈ M.sample_ids ∧ d ≤ rowSum M s := by
  simp [rarefyKept]

/-- C1: for every matrix and accepted sampling depth, every retained row
of the rarefied table sums to exactly the depth, samples whose total is
below the depth are absent from the result, and a sample whose total
equals the depth keeps its row unchanged (at every feature position). -/
theorem rarefy_spec (M : FeatureMatrix) (d : ℚ) (draw : String → String → ℚ)
    (hdraw : ∀ s ∈ M.sample_ids, d ≤ rowSum M s → DrawValid M d draw s)
    (R : FeatureMatrix) (hR : rarefy M d draw = Except.ok R) :
    (∀ s ∈ R.sample_ids, rowSum R s = d) ∧
    (∀ s ∈ M.sample_ids, rowSum M s < d → s ∉ R.sample_ids) ∧
    (∀ s ∈ M.sample_ids, rowSum M s = d →
      s ∈ R.sample_ids ∧ ∀ f, entry R s f = entry M s f) := by
  unfold rarefy at hR
  split at hR
  · exact absurd hR (by simp)
  split at hR
  · exact absurd hR (by simp)
  have hRdef : R = dropZeroColumns ⟨rarefyKept M d, M.feature_ids, draw⟩ :=
    ((Except.ok.injEq _ _).mp hR).symm
  subst hRdef
  have hfeat : ∀ f, f ∈ M.feature_ids →
      (¬ f ∈ (dropZeroColumns ⟨rarefyKept M d, M.feature_ids, draw⟩).feature_ids) →
      ∀ s ∈ rarefyKept M d, draw s f = 0 := by
    intro f hfM hfR s hs
    simp only [dropZeroColumns, List.mem_filter] at hfR
    push_neg at hfR
    have := hfR hfM
    simp only [decide_eq_true_eq] at this
    by_contra hne
    exact absurd (of_decide_eq_true (by simpa using this)) (by push_neg; exact ⟨s, hs, hne⟩)
  refine ⟨?_, ?_, ?_⟩
  · intro s hs
    have hs' : s ∈ rarefyKept M d := by simpa [dropZeroColumns] using hs
    obtain ⟨hsM, hsd⟩ := (rarefyKept_mem M d s).mp hs'
    obtain ⟨hbnd, hsum⟩ := hdraw s hsM hsd
    show ((M.feature_ids.filter _).map (draw s)).sum = d
    rw [sum_map_filter_eq _ _ _ ?hz]
    · exact hsum
    case hz =>
      intro f hf hb
      refine hfeat f hf ?_ s hs'
      simp only [dropZeroColumns, List.mem_filter, hb]
      simp
  · intro s hsM hlt hmem
    have hs' : s ∈ rarefyKept M d := by simpa [dropZeroColumns] using hmem
    exact absurd ((rarefyKept_mem M d s).mp hs').2 (not_le.mpr hlt)
  · intro s hsM hsumEq
    have hkept : s ∈ rarefyKept M d :=
      (rarefyKept_mem M d s).mpr ⟨hsM, le_of_eq hsumEq.symm⟩
    obtain ⟨hbnd, hsum⟩ := hdraw s hsM (le_of_eq hsumEq.symm)
    have hforce : ∀ f ∈ M.feature_ids, draw s f = M.val s f := by
      apply map_sum_le_forces_eq M.feature_ids (draw s) (M.val s)
        (fun f hf => (hbnd f hf).2)
      rw [hsum]
      exact hsumEq.symm
    refine ⟨by simpa [dropZeroColumns] using hkept, ?_⟩
    intro f
    by_cases hfM : f ∈ M.feature_ids
    · by_cases hfR : f ∈ (dropZeroColumns ⟨rarefyKept M d, M.feature_ids, draw⟩).feature_ids
      · unfold entry
        rw [if_pos ⟨by simpa [dropZeroColumns] using hkept, hfR⟩, if_pos ⟨hsM, hfM⟩]
        exact hforce f hfM
      · have hz : draw s f = 0 := hfeat f hfM hfR s hkept
        unfold entry
        rw [if_neg (fun hc => hfR hc.2), if_pos ⟨hsM, hfM⟩]
        rw [← hforce f hfM, hz]
    · have hfR : ¬ f ∈ (dropZeroColumns ⟨rarefyKept M d, M.feature_ids, draw⟩).feature_ids := by
        intro hc
        exact hfM (List.mem_of_mem_filter hc)
      unfold entry
      rw [if_neg (fun hc => hfR hc.2), if_neg (fun hc => hfM hc.2)]

/-- C1 witness: rarefying the concrete spec scenario matrix to depth 3
with the concrete draw A ↦ [2,0,1], B ↦ [0,2,1] succeeds, every retained
row sums to 3, and no sample with total below 3 is retained. -/
theorem rarefy_spec_witness :
    ∃ R, rarefy exM 3 exDraw = Except.ok R ∧
      (∀ s ∈ R.sample_ids, rowSum R s = 3) ∧
      (∀ s ∈ exM.sample_ids, rowSum exM s < 3 → s ∉ R.sample_ids) := by
  have hdraw : ∀ s ∈ exM.sample_ids, (3:ℚ) ≤ rowSum exM s → DrawValid exM 3 exDraw s := by
    intro s hs _
    have hs' : s = "A" ∨ s = "B" := by simpa [exM] using hs
    rcases hs' with rfl | rfl
    · exact ⟨by decide, by simp [exM, exDraw]; norm_num⟩
    · exact ⟨by decide, by simp [exM, exDraw]; norm_num⟩
  have hne : ¬ rarefyKept exM 3 = [] := by
    simp [rarefyKept, exM, rowSum]
  have h : rarefy exM 3 exDraw =
      Except.ok (dropZeroColumns ⟨rarefyKept exM 3, exM.feature_ids, exDraw⟩) := by
    unfold rarefy
    rw [if_neg (by norm_num), if_neg hne]
  obtain ⟨h1, h2, -⟩ := rarefy_spec exM 3 exDraw hdraw _ h
  exact ⟨_, h, h1, h2⟩

theorem filter_samples_ok_nonempty (M : FeatureMatrix) (p : FilterParams)
    (R : FeatureMatrix) (hR : filter_samples M p = Except.ok R) :
    R.sample_ids ≠ [] ∧ R.feature_ids ≠ [] := by
  unfold filter_samples at hR
  split at hR
  · exact absurd hR (by simp)
  split at hR
  · exact absurd hR (by simp)
  rename_i hcond
  push_neg at hcond
  have hRdef : R = dropZeroColumns ⟨keptSamples M p, M.feature_ids, M.val⟩ :=
    ((Except.ok.injEq _ _).mp hR).symm
  subst hRdef
  exact ⟨hcond.1, hcond.2⟩

/-- C5: both filter instantiations fail with EmptyResultError whenever the
filtered result would have zero rows or zero columns — a successful result
never has an empty axis, and an empty retained axis forces the error — and
on the §8 scenario matrix, `min_features = 3` on samples removes both
samples and triggers EmptyResultError. -/
theorem filter_empty_result :
    (∀ M p R, filter_samples M p = Except.ok R →
      R.sample_ids ≠ [] ∧ R.feature_ids ≠ []) ∧
    (∀ M p R, filter_features M p = Except.ok R →
      R.sample_ids ≠ [] ∧ R.feature_ids ≠ []) ∧
    (∀ M p, boundsValid p = true →
      (keptSamples M p = [] ∨
        (dropZeroColumns ⟨keptSamples M p, M.feature_ids, M.val⟩).feature_ids = []) →
      filter_samples M p = Except.error TableError.emptyResult) ∧
    (∀ M p, boundsValid p = true →
      (keptSamples (transpose M) p = [] ∨
        (dropZeroColumns
          ⟨keptSamples (transpose M) p, (transpose M).feature_ids,
           (transpose M).val⟩).feature_ids = []) →
      filter_features M p = Except.error TableError.emptyResult) ∧
    filter_samples exM exMinFeatures3 = Except.error TableError.emptyResult := by
  have herr : ∀ M p, boundsValid p = true →
      (keptSamples M p = [] ∨
        (dropZeroColumns ⟨keptSamples M p, M.feature_ids, M.val⟩).feature_ids = []) →
      filter_samples M p = Except.error TableError.emptyResult := by
    intro M p hb hcond
    unfold filter_samples
    rw [if_neg (by simp [hb]), if_pos hcond]
  have hfeat_ok : ∀ M p R, filter_features M p = Except.ok R →
      R.sample_ids ≠ [] ∧ R.feature_ids ≠ [] := by
    intro M p R hR
    unfold filter_features at hR
    cases hx : filter_samples (transpose M) p with
    | error e => rw [hx] at hR; exact absurd hR (by simp [Except.map])
    | ok R' =>
      rw [hx] at hR
      have hRdef : R = transpose R' := by
        simpa [Except.map] using hR.symm
      subst hRdef
      have := filter_samples_ok_nonempty (transpose M) p R' hx
      exact ⟨this.2, this.1⟩
  refine ⟨fun M p R => filter_samples_ok_nonempty M p R, hfeat_ok, herr, ?_, ?_⟩
  · intro M p hb hcond
    unfold filter_features
    rw [herr (transpose M) p hb hcond]
    rfl
  · apply herr exM exMinFeatures3 (by decide)
    left
    simp [keptSamples, retainSample, nnzRow, rowSum, exM, exMinFeatures3]

/-- C5 witness: the error conjunct applied at the concrete §8 scenario —
the bounds are valid, the retained sample list is empty, and the filter
reports EmptyResultError. -/
theorem filter_empty_result_witness :
    filter_samples exM exMinFeatures3 = Except.error TableError.emptyResult := by
  apply filter_empty_result.2.2.1 exM exMinFeatures3 (by decide)
  left
  simp [keptSamples, retainSample, nnzRow, rowSum, exM, exMinFeatures3]

/-- C6: merging with the "error" overlap policy reports
OverlapConflictError exactly when the two inputs' sample id sets
intersect. -/
theorem merge_error_iff_overlap (A B : FeatureMatrix) :
    merge A B OverlapMethod.errorOnOverlap =
      Except.error TableError.overlapConflict ↔
    ∃ s, s ∈ A.sample_ids ∧ s ∈ B.sample_ids := by
  unfold merge
  by_cases h : ∃ s ∈ A.sample_ids, s ∈ B.sample_ids
  · rw [if_pos h]
    simpa using h
  · rw [if_neg h]
    constructor
    · intro hc
      exact absurd hc (by simp)
    · intro hc
      exact absurd (by simpa using hc) h

theorem listUnion_mem (l1 l2 : List String) (x : String) :
    x ∈ listUnion l1 l2 ↔ x ∈ l1 ∨ x ∈ l2 := by
  simp only [listUnion, List.mem_append, List.mem_filter, decide_eq_true_eq]
  tauto

theorem cleanup_congr (M N : FeatureMatrix)
    (hs : ∀ x, x ∈ M.sample_ids ↔ x ∈ N.sample_ids)
    (hf : ∀ x, x ∈ M.feature_ids ↔ x ∈ N.feature_ids)
    (hv : ∀ s f, M.val s f = N.val s f) :
    (∀ x, x ∈ (cleanup M).sample_ids ↔ x ∈ (cleanup N).sample_ids) ∧
    (∀ x, x ∈ (cleanup M).feature_ids ↔ x ∈ (cleanup N).feature_ids) ∧
    (∀ s f, entry (cleanup M) s f = entry (cleanup N) s f) := by
  have hrow : ∀ x, x ∈ (dropZeroRows M).sample_ids ↔ x ∈ (dropZeroRows N).sample_ids := by
    intro x
    simp only [dropZeroRows, List.mem_filter, decide_eq_true_eq]
    constructor
    · rintro ⟨hx, g, hg, hgv⟩
      refine ⟨(hs x).mp hx, g, (hf g).mp hg, ?_⟩
      rw [← hv x g]
      exact hgv
    · rintro ⟨hx, g, hg, hgv⟩
      refine ⟨(hs x).mpr hx, g, (hf g).mpr hg, ?_⟩
      rw [hv x g]
      exact hgv
  have hsup : ∀ x, x ∈ (cleanup M).sample_ids ↔ x ∈ (cleanup N).sample_ids := by
    intro x
    show x ∈ (dropZeroRows M).sample_ids ↔ x ∈ (dropZeroRows N).sample_ids
    exact hrow x
  have hcol : ∀ x, x ∈ (cleanup M).feature_ids ↔ x ∈ (cleanup N).feature_ids := by
    intro x
    show x ∈ List.filter _ (dropZeroRows M).feature_ids ↔
      x ∈ List.filter _ (dropZeroRows N).feature_ids
    rw [List.mem_filter, List.mem_filter]
    simp only [decide_eq_true_eq]
    constructor
    · rintro ⟨hx, g, hg, hgv⟩
      have hx' : x ∈ M.feature_ids := hx
      have hgv' : M.val g x ≠ 0 := hgv
      have hgv2 : N.val g x ≠ 0 := by rw [← hv g x]; exact hgv'
      exact ⟨(hf x).mp hx', g, (hrow g).mp hg, hgv2⟩
    · rintro ⟨hx, hg, hg2, hgv⟩
      have hx' : x ∈ N.feature_ids := hx
      have hgv' : N.val hg x ≠ 0 := hgv
      have hgv2 : M.val hg x ≠ 0 := by rw [hv hg x]; exact hgv'
      exact ⟨(hf x).mpr hx', hg, (hrow hg).mpr hg2, hgv2⟩
  refine ⟨hsup, hcol, ?_⟩
  intro s f
  unfold entry
  by_cases hc : s ∈ (cleanup M).sample_ids ∧ f ∈ (cleanup M).feature_ids
  · rw [if_pos hc, if_pos ⟨(hsup s).mp hc.1, (hcol f).mp hc.2⟩]
    exact hv s f
  · rw [if_neg hc, if_neg (fun hc2 => hc ⟨(hsup s).mpr hc2.1, (hcol f).mpr hc2.2⟩)]

/-- C7: merging two tables with the "union" overlap policy is symmetric —
both orders succeed and produce matrices with identical sample id sets,
identical feature id sets, and identical values at every (sample, feature)
position. -/
theorem merge_union_comm (A B : FeatureMatrix) :
    ∃ R1 R2, merge A B OverlapMethod.union = Except.ok R1 ∧
      merge B A OverlapMethod.union = Except.ok R2 ∧
      (∀ s, s ∈ R1.sample_ids ↔ s ∈ R2.sample_ids) ∧
      (∀ f, f ∈ R1.feature_ids ↔ f ∈ R2.feature_ids) ∧
      (∀ s f, entry R1 s f = entry R2 s f) := by
  refine ⟨cleanup (mergeRaw A B), cleanup (mergeRaw B A), rfl, rfl, ?_⟩
  have h := cleanup_congr (mergeRaw A B) (mergeRaw B A)
    (fun x => by simp only [mergeRaw, listUnion_mem]; tauto)
    (fun x => by simp only [mergeRaw, listUnion_mem]; tauto)
    (fun s f => by simp only [mergeRaw]; exact add_comm _ _)
  exact ⟨h.1, h.2.1, h.2.2⟩

theorem lookup_cons_ite (k : String) (a : String × String)
    (t : List (String × String)) :
    (a :: t).lookup k = if k = a.1 then some a.2 else t.lookup k := by
  by_cases h : k = a.1
  · have hb : (k == a.1) = true := beq_iff_eq.mpr h
    rw [if_pos h]
    show (match k == a.1 with | true => some a.2 | false => t.lookup k) = some a.2
    rw [hb]
  · have hb : (k == a.1) = false := beq_false_of_ne h
    rw [if_neg h]
    show (match k == a.1 with | true => some a.2 | false => t.lookup k) = t.lookup k
    rw [hb]

theorem lookup_append (l1 l2 : List (String × String)) (k : String) :
    (l1 ++ l2).lookup k =
      match l1.lookup k with
      | some v => some v
      | none => l2.lookup k := by
  induction l1 with
  | nil => simp
  | cons a t ih =>
    by_cases hk : k = a.1
    · simp [lookup_cons_ite, hk]
    · simp [lookup_cons_ite, hk, ih]

theorem lookup_filter_of_no_key (d1 d2 : List (String × String)) (k : String)
    (hk : ∀ q ∈ d1, q.1 ≠ k) :
    (d2.filter fun p => decide (∀ q ∈ d1, q.1 ≠ p.1)).lookup k = d2.lookup k := by
  induction d2 with
  | nil => rfl
  | cons a t ih =>
    by_cases hka : k = a.1
    · have hpred : ∀ q ∈ d1, q.1 ≠ a.1 := fun q hq => hka ▸ hk q hq
      rw [List.filter_cons,
        if_pos (show (decide (∀ q ∈ d1, q.1 ≠ a.1)) = true by simpa using hpred),
        lookup_cons_ite, if_pos hka, lookup_cons_ite, if_pos hka]
    · by_cases hpred : ∀ q ∈ d1, q.1 ≠ a.1
      · simp only [List.filter_cons, decide_eq_true_eq, if_pos hpred,
          lookup_cons_ite, if_neg hka]
        exact ih
      · simp only [List.filter_cons, decide_eq_true_eq, if_neg hpred]
        rw [ih, lookup_cons_ite, if_neg hka]

theorem lookup_none_no_key (d : List (String × String)) (k : String)
    (h : d.lookup k = none) : ∀ q ∈ d, q.1 ≠ k := by
  induction d with
  | nil => intro q hq; cases hq
  | cons a t ih =>
    rw [lookup_cons_ite] at h
    by_cases hk : k = a.1
    · rw [if_pos hk] at h
      cases h
    · rw [if_neg hk] at h
      intro q hq
      rcases List.mem_cons.mp hq with h1 | h2
      · rw [h1]; exact fun hc => hk hc.symm
      · exact ih h q h2

theorem merge_side_data_lookup (d1 d2 : List (String × String)) (k : String) :
    (merge_side_data d1 d2).lookup k =
      match d1.lookup k with
      | some v => some v
      | none => d2.lookup k := by
  unfold merge_side_data
  rw [lookup_append]
  cases h1 : d1.lookup k with
  | some v => rfl
  | none => exact lookup_filter_of_no_key d1 d2 k (lookup_none_no_key d1 k h1)

/-- C9: merge_side_data is the key-wise union of the two collections in
which, for a feature id present in both, data1's value is kept and data2's
value for that id is discarded — the looked-up value is always exactly one
of the input values, never a combination. -/
theorem merge_side_data_spec (d1 d2 : List (String × String)) (k : String) :
    ((∃ v, (merge_side_data d1 d2).lookup k = some v) ↔
      ((∃ v, d1.lookup k = some v) ∨ (∃ v, d2.lookup k = some v))) ∧
    (∀ v1, d1.lookup k = some v1 → (merge_side_data d1 d2).lookup k = some v1) ∧
    (d1.lookup k = none → (merge_side_data d1 d2).lookup k = d2.lookup k) := by
  have hchar := merge_side_data_lookup d1 d2 k
  refine ⟨?_, ?_, ?_⟩
  · rw [hchar]
    cases h1 : d1.lookup k with
    | some v => simp
    | none => simp
  · intro v1 h1
    rw [hchar, h1]
  · intro h1
    rw [hchar, h1]

/-- C9 witness: with "f1" present in both collections with different
values, the merge keeps data1's value "ACGT" for "f1" and data2's value
"GGGG" for the fresh id "f2". -/
theorem merge_side_data_spec_witness :
    (merge_side_data exSeq1 exSeq2).lookup "f1" = some "ACGT" ∧
    (merge_side_data exSeq1 exSeq2).lookup "f2" = some "GGGG" := by
  constructor
  · exact (merge_side_data_spec exSeq1 exSeq2 "f1").2.1 "ACGT" (by decide)
  · rw [(merge_side_data_spec exSeq1 exSeq2 "f2").2.2 (by decide)]
    decide

/-- C2 (amended): the core-feature analysis fails with InvalidRangeError
whenever a fraction falls outside (0,1] or min_fraction > max_fraction,
and — when the fractions pass that range check — it fails with
InvalidStepsError exactly when steps < 2 and the fractions differ. -/
theorem core_features_validation (M : FeatureMatrix) (mn mx : ℚ) (steps : ℕ) :
    ((¬(0 < mn ∧ mn ≤ 1) ∨ ¬(0 < mx ∧ mx ≤ 1) ∨ mx < mn) →
      core_features M mn mx steps = Except.error TableError.invalidRange) ∧
    (core_features M mn mx steps = Except.error TableError.invalidSteps ↔
      ((0 < mn ∧ mn ≤ 1) ∧ (0 < mx ∧ mx ≤ 1) ∧ mn ≤ mx ∧ steps < 2 ∧ mn ≠ mx)) := by
  constructor
  · intro hbad
    have hc : core_check mn mx steps = some TableError.invalidRange := by
      unfold core_check
      rw [if_pos hbad]
    unfold core_features
    rw [hc]
  · by_cases hbad : ¬(0 < mn ∧ mn ≤ 1) ∨ ¬(0 < mx ∧ mx ≤ 1) ∨ mx < mn
    · have hc : core_check mn mx steps = some TableError.invalidRange := by
        unfold core_check
        rw [if_pos hbad]
      unfold core_features
      rw [hc]
      constructor
      · intro hcontra
        exact absurd ((Except.error.injEq _ _).mp hcontra) (by decide)
      · rintro ⟨h1, h2, h3, -⟩
        exact absurd hbad (by push_neg; exact ⟨h1, h2, h3⟩)
    · push_neg at hbad
      obtain ⟨h1, h2, h3⟩ := hbad
      have hgood : ¬(¬(0 < mn ∧ mn ≤ 1) ∨ ¬(0 < mx ∧ mx ≤ 1) ∨ mx < mn) := by
        push_neg
        exact ⟨h1, h2, h3⟩
      by_cases hsteps : steps < 2 ∧ mn ≠ mx
      · have hc : core_check mn mx steps = some TableError.invalidSteps := by
          unfold core_check
          rw [if_neg hgood, if_pos hsteps]
        unfold core_features
        rw [hc]
        constructor
        · intro _
          exact ⟨h1, h2, h3, hsteps⟩
        · intro _
          rfl
      · have hc : core_check mn mx steps = none := by
          unfold core_check
          rw [if_neg hgood, if_neg hsteps]
        unfold core_features
        rw [hc]
        constructor
        · intro hcontra
          exact absurd hcontra (by simp)
        · rintro ⟨-, -, -, h4, h5⟩
          exact absurd ⟨h4, h5⟩ hsteps

/-- C2 witness: at min_fraction = 2, max_fraction = 3, any steps, the
range check fails and InvalidRangeError is reported; at valid fractions
1/4 and 3/4 with steps = 1 the steps check fails with InvalidStepsError. -/
theorem core_features_validation_witness :
    core_features exM 2 3 5 = Except.error TableError.invalidRange ∧
    core_features exM (1/4) (3/4) 1 = Except.error TableError.invalidSteps := by
  constructor
  · exact (core_features_validation exM 2 3 5).1 (Or.inl (by norm_num))
  · exact (core_features_validation exM (1/4) (3/4) 1).2.mpr
      ⟨by norm_num, by norm_num, by norm_num, by norm_num, by norm_num⟩

/-- C2 counterexample: at min_fraction = 0, max_fraction = 1, steps = 1
the condition "steps < 2 and min_fraction ≠ max_fraction" holds, yet the
analysis reports InvalidRangeError (the range check fires first), not
InvalidStepsError — so "fails with InvalidStepsError exactly when
steps < 2 and min_fraction ≠ max_fraction" is false as stated. -/
theorem core_features_steps_counterexample :
    (1 < 2 ∧ (0:ℚ) ≠ (1:ℚ)) ∧
    core_features exM 0 1 1 = Except.error TableError.invalidRange ∧
    TableError.invalidRange ≠ TableError.invalidSteps := by
  refine ⟨⟨by norm_num, by norm_num⟩, ?_, by decide⟩
  have hc : core_check (0:ℚ) 1 1 = some TableError.invalidRange := by
    unfold core_check
    rw [if_pos (Or.inl (by norm_num))]
  unfold core_features
  rw [hc]

/-- C8: in every sweep result produced by the core-feature analysis, the
feature set computed for a higher fraction is a subset of the feature set
computed for any lower fraction. -/
theorem core_features_monotone (M : FeatureMatrix) (mn mx : ℚ) (steps : ℕ)
    (res : List (ℚ × List String))
    (hres : core_features M mn mx steps = Except.ok res)
    (f1 f2 : ℚ) (S1 S2 : List String)
    (h1 : (f1, S1) ∈ res) (h2 : (f2, S2) ∈ res) (hlt : f1 < f2) :
    ∀ t ∈ S2, t ∈ S1 := by
  unfold core_features at hres
  cases hc : core_check mn mx steps with
  | some e =>
    rw [hc] at hres
    exact absurd hres (by simp)
  | none =>
    rw [hc] at hres
    have hresdef : res = (sweepFractions mn mx steps).map fun fr =>
        (fr, M.feature_ids.filter (isCore M fr)) := by
      simpa using hres.symm
    subst hresdef
    obtain ⟨fr1, hfr1, heq1⟩ := List.mem_map.mp h1
    obtain ⟨fr2, hfr2, heq2⟩ := List.mem_map.mp h2
    rw [Prod.mk.injEq] at heq1 heq2
    obtain ⟨hfr1e, hS1⟩ := heq1
    obtain ⟨hfr2e, hS2⟩ := heq2
    subst hfr1e
    subst hfr2e
    subst hS1
    subst hS2
    intro t ht
    obtain ⟨htf, htc⟩ := List.mem_filter.mp ht
    unfold isCore at htc
    have hcore2 := of_decide_eq_true htc
    have hn : (0:ℚ) ≤ (M.sample_ids.length : ℚ) := by positivity
    refine List.mem_filter.mpr ⟨htf, ?_⟩
    unfold isCore
    exact decide_eq_true
      (le_trans (mul_le_mul_of_nonneg_right (le_of_lt hlt) hn) hcore2)

/-- C8 witness: sweeping `exM` from 1/2 to 1 in 2 steps yields the core
sets [O1, O2, O3] at 1/2 and [O3] at 1, and the higher-fraction set is
contained in the lower-fraction one. -/
theorem core_features_monotone_witness :
    core_features exM (1/2) 1 2 = Except.ok exSweep ∧
    ∀ t ∈ ["O3"], t ∈ ["O1", "O2", "O3"] := by
  have hsw : sweepFractions (1/2 : ℚ) 1 2 = [1/2, 1] := by
    unfold sweepFractions
    rw [if_neg (by norm_num)]
    simp [List.range_succ]
    norm_num
  have hc : core_check (1/2 : ℚ) 1 2 = none := by
    unfold core_check
    rw [if_neg (by norm_num), if_neg (by norm_num)]
  have h : core_features exM (1/2) 1 2 = Except.ok exSweep := by
    unfold core_features
    rw [hc, hsw]
    simp [exM, exSweep, isCore, nnzCol]
  refine ⟨h, ?_⟩
  exact core_features_monotone exM (1/2) 1 2 exSweep h (1/2) 1
    ["O1", "O2", "O3"] ["O3"] (by simp [exSweep]) (by simp [exSweep]) (by norm_num)

/-- C10: at the registered core_features interface, `steps` is constrained
by `Int % Range(2, None)` — any steps below 2 is rejected regardless of
the fraction values, including when they are equal — `min_fraction` is
bounded to the open interval (0, 1) which excludes 1.0, and
`max_fraction = 0.0` is admitted by its closed interval [0, 1]. -/
theorem core_features_registration (mn mx : ℚ) (steps : ℤ) :
    (steps < 2 → core_features_params_ok mn mx steps = false) ∧
    (core_features_steps_ok steps = true ↔ 2 ≤ steps) ∧
    (core_features_min_fraction_ok mn = true ↔ (0 < mn ∧ mn < 1)) ∧
    core_features_min_fraction_ok 1 = false ∧
    core_features_max_fraction_ok 0 = true := by
  refine ⟨?_, by simp [core_features_steps_ok], by simp [core_features_min_fraction_ok],
    by decide, by decide⟩
  intro h
  simp [core_features_params_ok, core_features_steps_ok, not_le.mpr h]

/-- C10 witness: with min_fraction = max_fraction = 1/2 (equal fractions)
and steps = 1, the registered parameter constraints reject the call. -/
theorem core_features_registration_witness :
    core_features_params_ok (1/2) (1/2) 1 = false :=
  (core_features_registration (1/2) (1/2) 1).1 (by norm_num)

end Q2FeatureTable
